import Mathlib

/-!
Verification of the explorer indexing engine (explorer-server) against its
specification.  The definitions below are a shallow embedding of the Rust
source files `src/explorer-server/src/indexdb.rs`, `indexer.rs`,
`blockchain.rs` and `primitives.rs`:

* byte strings are `List Nat` with every element intended `< 256`;
* machine integers are `Nat`/`Int` with explicit `% 2^w` where the source
  casts or wraps;
* RocksDB column families are embedded either as partial maps
  (`key → Option value`) for point lookups, or as association lists sorted
  by encoded key (with explicit sortedness hypotheses) for iterator scans;
* fallible code (including panics reachable from `expect`/`unwrap`) returns
  `Option`/`Except Unit`.

Serialization (`bincode`) is treated as a faithful pairing: column families
store typed records directly, keyed by the typed composite key whose byte
encoding we define explicitly (the iterators compare encoded bytes exactly
as RocksDB's bytewise comparator does).
-/

namespace Explorer

/-! ## Byte-string utilities (key codec, `indexdb.rs`) -/

/-- Strict lexicographic (bytewise) order on byte strings; this is RocksDB's
default comparator: a proper prefix sorts before its extensions. -/
def bytesLt : List Nat → List Nat → Bool
  | [], [] => false
  | [], _ :: _ => true
  | _ :: _, [] => false
  | a :: as, b :: bs => a < b || (a == b && bytesLt as bs)

/-- Big-endian 4-byte encoding of a `u32` (`to_be_bytes` / `U32<BE>`). -/
def beBytes4 (n : Nat) : List Nat :=
  [n / 2 ^ 24 % 256, n / 2 ^ 16 % 256, n / 2 ^ 8 % 256, n % 256]

/-- Models `i32`-to-`u32` cast (`as u32` in Rust): two's-complement wraparound. -/
def u32OfI32 (n : Int) : Nat := (n % 2 ^ 32).toNat

/-- Models `u64`-to-`i64` cast (`as i64` in Rust): two's-complement wraparound. -/
def i64OfU64 (n : Nat) : Int :=
  if n % 2 ^ 64 < 2 ^ 63 then (n % 2 ^ 64 : Nat) else (n % 2 ^ 64 : Nat) - 2 ^ 64

/-- Reduce an integer to the `i64` range `[-2^63, 2^63)` by two's-complement
wraparound: the result of every release-mode `i64` addition or
subtraction. -/
def wrapI64 (n : Int) : Int := (n + 2 ^ 63) % 2 ^ 64 - 2 ^ 63

/-- Models `inc_bytes` helper on the reversed byte string: wrapping-increment the
first byte; on wraparound to zero continue with the next byte
(`indexdb.rs`, fn `inc_bytes`). -/
def incBytesRev : List Nat → List Nat
  | [] => []
  | b :: rest =>
    if (b + 1) % 256 ≠ 0 then (b + 1) % 256 :: rest
    else 0 :: incBytesRev rest

/-- Models `inc_bytes`: increment a byte string as a big-endian number, wrapping
(used to seek one past an address prefix). -/
def incBytes (bs : List Nat) : List Nat := (incBytesRev bs.reverse).reverse

/-! ## Record types (`primitives.rs`) -/

/-- The eight supported SLP actions (`primitives.rs`, enum `SlpAction`). -/
inductive SlpAction
  | slpV1Genesis
  | slpV1Mint
  | slpV1Send
  | slpV1Nft1GroupGenesis
  | slpV1Nft1GroupMint
  | slpV1Nft1GroupSend
  | slpV1Nft1UniqueChildGenesis
  | slpV1Nft1UniqueChildSend
  deriving DecidableEq, Repr

/-- Models `primitives.rs`, enum `TxMetaVariant`. The `slp` arm's token id is a
32-byte array in the source; the `invalidSlp` arm's is an arbitrary byte
vector. -/
inductive TxMetaVariant
  | satsOnly
  | slp (action : SlpAction) (tokenInput : Nat) (tokenOutput : Nat) (tokenId : List Nat)
  | invalidSlp (tokenId : List Nat) (tokenInput : Nat)
  deriving DecidableEq, Repr

/-- Models `primitives.rs`, struct `TxMeta`. -/
structure TxMeta where
  blockHeight : Int
  timestamp : Int
  isCoinbase : Bool
  size : Int
  numInputs : Nat
  numOutputs : Nat
  satsInput : Int
  satsOutput : Int
  variant : TxMetaVariant
  deriving DecidableEq, Repr

/-- Models `primitives.rs`, struct `AddressTx`. -/
structure AddressTx where
  timestamp : Int
  blockHeight : Int
  deltaSats : Int
  deltaTokens : Int
  deriving DecidableEq, Repr

/-- Models `primitives.rs`, struct `Utxo`. -/
structure Utxo where
  satsAmount : Int
  tokenAmount : Nat
  isCoinbase : Bool
  blockHeight : Int
  tokenId : Option (List Nat)
  deriving DecidableEq, Repr

/-! ## Upstream wire types (generated `bchrpc` protobuf structs) -/

/-- Models `bchrpc::slp_transaction_info::ValidityJudgement`. -/
inductive ValidityJudgement
  | unknownOrInvalid
  | valid
  deriving DecidableEq, Repr

/-- Models `bchrpc::SlpAction` (the upstream twelve-valued action enum). -/
inductive BchSlpAction
  | nonSlp
  | nonSlpBurn
  | slpParseError
  | slpUnsupportedVersion
  | slpV1Genesis
  | slpV1Mint
  | slpV1Send
  | slpV1Nft1GroupGenesis
  | slpV1Nft1GroupMint
  | slpV1Nft1GroupSend
  | slpV1Nft1UniqueChildGenesis
  | slpV1Nft1UniqueChildSend
  deriving DecidableEq, Repr

/-- Models `bchrpc::transaction::input::Outpoint`. -/
structure Outpoint where
  hash : List Nat
  index : Nat
  deriving DecidableEq, Repr

/-- Models `bchrpc::SlpToken` (only the field the indexer reads). -/
structure SlpToken where
  amount : Nat
  deriving DecidableEq, Repr

/-- Models `bchrpc::SlpTransactionInfo` (only the fields the indexer reads). -/
structure SlpTransactionInfo where
  validityJudgement : ValidityJudgement
  slpAction : BchSlpAction
  tokenId : List Nat
  deriving DecidableEq, Repr

/-- Models `bchrpc::transaction::Input` (fields the indexer reads). -/
structure TxInput where
  outpoint : Option Outpoint
  previousScript : List Nat
  value : Int
  slpToken : Option SlpToken
  deriving DecidableEq, Repr

/-- Models `bchrpc::transaction::Output` (fields the indexer reads). -/
structure TxOutput where
  pubkeyScript : List Nat
  value : Int
  slpToken : Option SlpToken
  deriving DecidableEq, Repr

/-- Models `bchrpc::Transaction` (fields the indexer reads). -/
structure Transaction where
  hash : List Nat
  blockHeight : Int
  timestamp : Int
  size : Int
  inputs : List TxInput
  outputs : List TxOutput
  slpTransactionInfo : Option SlpTransactionInfo
  deriving DecidableEq, Repr

/-! ## UTXO overlay read (`IndexDb::utxo`, indexdb.rs lines 326-334) -/

/-- Models `indexdb.rs`, struct `UtxoKey`: 32-byte tx hash followed by a
big-endian `u32` output index. -/
structure UtxoKey where
  txHash : List Nat
  outIdx : Nat
  deriving DecidableEq, Repr

/-- Byte encoding of a `UtxoKey` (zerocopy layout: hash then BE index). -/
def UtxoKey.encode (k : UtxoKey) : List Nat := k.txHash ++ beBytes4 k.outIdx

/-- The three column families `IndexDb::utxo` consults, as partial maps.
`mempool_utxo_set_remove` stores empty values, so presence is all that
matters (we keep the raw value bytes). -/
structure UtxoStore where
  utxoSet : UtxoKey → Option Utxo
  mempoolUtxoSetAdd : UtxoKey → Option Utxo
  mempoolUtxoSetRemove : UtxoKey → Option (List Nat)

/-- Models `IndexDb::utxo`: if the key is present in `mempool_utxo_set_remove`,
return `None`; else return `mempool_utxo_set_add[k]` if present; else
`utxo_set[k]`. -/
def utxoRead (st : UtxoStore) (k : UtxoKey) : Option Utxo :=
  match st.mempoolUtxoSetRemove k with
  | some _ => none
  | none =>
    match st.mempoolUtxoSetAdd k with
    | some u => some u
    | none => st.utxoSet k

/-! ## SLP classification (`IndexDb::tx_meta_variant`, indexdb.rs 536-584) -/

/-- Sum of the SLP token amounts over a transaction's inputs
(`u64` sum, hence reduced mod `2^64`). -/
def slpInputSum (tx : Transaction) : Nat :=
  (tx.inputs.map (fun i => (i.slpToken.map SlpToken.amount).getD 0)).sum % 2 ^ 64

/-- Sum of the SLP token amounts over a transaction's outputs
(`u64` sum, hence reduced mod `2^64`). -/
def slpOutputSum (tx : Transaction) : Nat :=
  (tx.outputs.map (fun o => (o.slpToken.map SlpToken.amount).getD 0)).sum % 2 ^ 64

/-- Models `[u8; 32]::try_from` on a byte vector: succeeds exactly on length 32
(the `.unwrap()` panic is `none`). -/
def tokenId32 (l : List Nat) : Option (List Nat) :=
  if l.length = 32 then some l else none

/-- Models `IndexDb::tx_meta_variant`. `none` models the panic of
`slp.token_id.as_slice().try_into().unwrap()` in the `Slp` arm (the
`InvalidSlp` arms convert to `Vec<u8>`, which cannot fail). -/
def txMetaVariant (tx : Transaction) : Option TxMetaVariant :=
  match tx.slpTransactionInfo with
  | none => some TxMetaVariant.satsOnly
  | some slp =>
    let inputSum := slpInputSum tx
    let outputSum := slpOutputSum tx
    if slp.validityJudgement = ValidityJudgement.unknownOrInvalid then
      if inputSum = 0 then some TxMetaVariant.satsOnly
      else some (TxMetaVariant.invalidSlp slp.tokenId inputSum)
    else
      match slp.slpAction with
      | BchSlpAction.nonSlp => some TxMetaVariant.satsOnly
      | BchSlpAction.nonSlpBurn => some (TxMetaVariant.invalidSlp slp.tokenId inputSum)
      | BchSlpAction.slpParseError => some (TxMetaVariant.invalidSlp slp.tokenId inputSum)
      | BchSlpAction.slpUnsupportedVersion =>
        some (TxMetaVariant.invalidSlp slp.tokenId inputSum)
      | BchSlpAction.slpV1Genesis =>
        (tokenId32 slp.tokenId).map
          (TxMetaVariant.slp SlpAction.slpV1Genesis inputSum outputSum)
      | BchSlpAction.slpV1Mint =>
        (tokenId32 slp.tokenId).map
          (TxMetaVariant.slp SlpAction.slpV1Mint inputSum outputSum)
      | BchSlpAction.slpV1Send =>
        (tokenId32 slp.tokenId).map
          (TxMetaVariant.slp SlpAction.slpV1Send inputSum outputSum)
      | BchSlpAction.slpV1Nft1GroupGenesis =>
        (tokenId32 slp.tokenId).map
          (TxMetaVariant.slp SlpAction.slpV1Nft1GroupGenesis inputSum outputSum)
      | BchSlpAction.slpV1Nft1GroupMint =>
        (tokenId32 slp.tokenId).map
          (TxMetaVariant.slp SlpAction.slpV1Nft1GroupMint inputSum outputSum)
      | BchSlpAction.slpV1Nft1GroupSend =>
        (tokenId32 slp.tokenId).map
          (TxMetaVariant.slp SlpAction.slpV1Nft1GroupSend inputSum outputSum)
      | BchSlpAction.slpV1Nft1UniqueChildGenesis =>
        (tokenId32 slp.tokenId).map
          (TxMetaVariant.slp SlpAction.slpV1Nft1UniqueChildGenesis inputSum outputSum)
      | BchSlpAction.slpV1Nft1UniqueChildSend =>
        (tokenId32 slp.tokenId).map
          (TxMetaVariant.slp SlpAction.slpV1Nft1UniqueChildSend inputSum outputSum)

/-- The map from the eight supported upstream actions to the stored
`SlpAction` (the eight non-early-return arms of the `match` in
`tx_meta_variant`); `none` for the four non-supported actions. -/
def supportedAction : BchSlpAction → Option SlpAction
  | BchSlpAction.nonSlp => none
  | BchSlpAction.nonSlpBurn => none
  | BchSlpAction.slpParseError => none
  | BchSlpAction.slpUnsupportedVersion => none
  | BchSlpAction.slpV1Genesis => some SlpAction.slpV1Genesis
  | BchSlpAction.slpV1Mint => some SlpAction.slpV1Mint
  | BchSlpAction.slpV1Send => some SlpAction.slpV1Send
  | BchSlpAction.slpV1Nft1GroupGenesis => some SlpAction.slpV1Nft1GroupGenesis
  | BchSlpAction.slpV1Nft1GroupMint => some SlpAction.slpV1Nft1GroupMint
  | BchSlpAction.slpV1Nft1GroupSend => some SlpAction.slpV1Nft1GroupSend
  | BchSlpAction.slpV1Nft1UniqueChildGenesis => some SlpAction.slpV1Nft1UniqueChildGenesis
  | BchSlpAction.slpV1Nft1UniqueChildSend => some SlpAction.slpV1Nft1UniqueChildSend

/-! ## Output script classification (`destination_from_script`,
blockchain.rs lines 51-85) -/

/-- Opcode constants used by `destination_from_script`. -/
def OP_DUP : Nat := 118
def OP_HASH160 : Nat := 169
def OP_EQUALVERIFY : Nat := 136
def OP_CHECKSIG : Nat := 172
def OP_EQUAL : Nat := 135
def OP_RETURN : Nat := 106

/-- Models `bitcoin_cash::AddressType` (P2PKH = 0, P2SH = 1 as `u8`). -/
inductive AddressType
  | p2pkh
  | p2sh
  deriving DecidableEq, Repr

/-- The `as u8` numeric code of an address type. -/
def AddressType.code : AddressType → Nat
  | AddressType.p2pkh => 0
  | AddressType.p2sh => 1

/-- Models `blockchain.rs`, enum `Destination`. The nulldata arm keeps the raw
data bytes (the ops deserialization is an external library concern). -/
inductive Destination
  | nulldata (data : List Nat)
  | address (addrType : AddressType) (hash : List Nat)
  | p2pk (pubkey : List Nat)
  | unknown (script : List Nat)
  deriving DecidableEq, Repr

/-- Models `Hash160::from_slice`: succeeds exactly on 20-byte inputs. -/
def hash160FromSlice (l : List Nat) : Option (List Nat) :=
  if l.length = 20 then some l else none

/-- Models `destination_from_script`: the source's slice-pattern match translated
arm by arm, in order.  A Rust pattern `[a, b, c, mid @ .., d, e]` matches
any script of length ≥ 5 with the given head and tail bytes and binds
`mid` to everything in between (of any length).  `none` models the panic
of `Hash160::from_slice(hash).expect("Invalid hash")`. -/
def destinationFromScript (script : List Nat) : Option Destination :=
  if 5 ≤ script.length ∧ script.take 3 = [OP_DUP, OP_HASH160, 20] ∧
      script.drop (script.length - 2) = [OP_EQUALVERIFY, OP_CHECKSIG] then
    (hash160FromSlice ((script.drop 3).take (script.length - 5))).map
      (Destination.address AddressType.p2pkh)
  else if 3 ≤ script.length ∧ script.take 2 = [OP_HASH160, 20] ∧
      script.drop (script.length - 1) = [OP_EQUAL] then
    (hash160FromSlice ((script.drop 2).take (script.length - 3))).map
      (Destination.address AddressType.p2sh)
  else if 2 ≤ script.length ∧ script.take 1 = [33] ∧
      script.drop (script.length - 1) = [OP_CHECKSIG] then
    some (Destination.p2pk ((script.drop 1).take (script.length - 2)))
  else if 2 ≤ script.length ∧ script.take 1 = [65] ∧
      script.drop (script.length - 1) = [OP_CHECKSIG] then
    some (Destination.p2pk ((script.drop 1).take (script.length - 2)))
  else if 1 ≤ script.length ∧ script.take 1 = [OP_RETURN] then
    some (Destination.nulldata (script.drop 1))
  else
    some (Destination.unknown script)

/-! ## Address-tx delta accumulation (`IndexDb::add_addr_tx_meta`,
indexdb.rs lines 586-622) -/

/-- The per-script (Δsats, Δtokens) accumulator after folding the
transaction's inputs (each subtracts) and then its outputs (each adds)
into the `address_delta` map, read at script `s`.  The accumulators are
`i64` in the source, so every `-=`/`+=` wraps (release mode), and the
token contribution is `slp.amount as i64`, a u64-to-i64 wrapping cast. -/
def addressDelta (tx : Transaction) (s : List Nat) : Int × Int :=
  let afterInputs := tx.inputs.foldl
    (fun m inp => fun t =>
      if t = inp.previousScript then
        (wrapI64 ((m t).1 - inp.value),
          wrapI64 ((m t).2 - ((inp.slpToken.map (fun slp => i64OfU64 slp.amount)).getD 0)))
      else m t)
    (fun _ => ((0 : Int), (0 : Int)))
  let afterOutputs := tx.outputs.foldl
    (fun m outp => fun t =>
      if t = outp.pubkeyScript then
        (wrapI64 ((m t).1 + outp.value),
          wrapI64 ((m t).2 + ((outp.slpToken.map (fun slp => i64OfU64 slp.amount)).getD 0)))
      else m t)
    afterInputs
  afterOutputs s

/-- Models `indexdb.rs`, struct `AddrTxKey` (zerocopy layout:
`addr_type ‖ addr_hash[20] ‖ block_height:u32[BE] ‖ tx_hash[32]`). -/
structure AddrTxKey where
  addrType : Nat
  addrHash : List Nat
  blockHeight : Nat
  txHash : List Nat
  deriving DecidableEq, Repr

/-- Byte encoding of an `AddrTxKey`. -/
def AddrTxKey.encode (k : AddrTxKey) : List Nat :=
  k.addrType :: k.addrHash ++ beBytes4 k.blockHeight ++ k.txHash

/-- The `addr_tx_meta` entry `add_addr_tx_meta` emits for a given script of
the transaction: present exactly when the script classifies as an address,
keyed by (addr_type, addr_hash, block_height as u32, tx_hash), valued by
the accumulated deltas.  (The script's panic path in
`destination_from_script` yields no entry because the whole batch dies.) -/
def addrTxEntryFor (tx : Transaction) (s : List Nat) : Option (AddrTxKey × AddressTx) :=
  match destinationFromScript s with
  | some (Destination.address t h) =>
    some ({ addrType := t.code, addrHash := h,
            blockHeight := u32OfI32 tx.blockHeight, txHash := tx.hash },
          { timestamp := tx.timestamp, blockHeight := tx.blockHeight,
            deltaSats := (addressDelta tx s).1,
            deltaTokens := (addressDelta tx s).2 })
  | _ => none

/-- Sats spent from script `s` by the transaction's inputs (spec-side
reading of the claim: each input of the script contributes its value). -/
def scriptInputSats (tx : Transaction) (s : List Nat) : Int :=
  ((tx.inputs.filter (fun i => i.previousScript == s)).map (fun i => i.value)).sum

/-- Token amount spent from script `s` by the transaction's inputs. -/
def scriptInputTokens (tx : Transaction) (s : List Nat) : Int :=
  ((tx.inputs.filter (fun i => i.previousScript == s)).map
    (fun i => (i.slpToken.map (fun slp => i64OfU64 slp.amount)).getD 0)).sum

/-- Sats received by script `s` from the transaction's outputs. -/
def scriptOutputSats (tx : Transaction) (s : List Nat) : Int :=
  ((tx.outputs.filter (fun o => o.pubkeyScript == s)).map (fun o => o.value)).sum

/-- Token amount received by script `s` from the transaction's outputs. -/
def scriptOutputTokens (tx : Transaction) (s : List Nat) : Int :=
  ((tx.outputs.filter (fun o => o.pubkeyScript == s)).map
    (fun o => (o.slpToken.map (fun slp => i64OfU64 slp.amount)).getD 0)).sum

/-! ## RocksDB raw-iterator model

A column family under iteration is an association list of
(typed key, value) pairs held in ascending order of the key's byte
encoding (sortedness is a hypothesis where a proof needs it).  An iterator
position is `some i` (valid, at index i) or `none` (invalid).  `seek`
positions at the first entry whose encoded key is `≥` the target in
bytewise order; `next`/`prev` move by one and fall off to invalid at
either end.  A `prev` on an invalid iterator stays invalid (the source
never calls `prev` on an iterator known-invalid except straight after a
`seek`, where RocksDB leaves the behavior to the comparator's end; the
concrete stores used below avoid that corner by construction). -/

/-- Index of the first entry whose encoded key is not `<` the target
(i.e. the seek position); equals the list length when every key is
smaller. -/
def seekIdx {K V : Type} (enc : K → List Nat) (target : List Nat) :
    List (K × V) → Nat
  | [] => 0
  | e :: es => if bytesLt (enc e.1) target then seekIdx enc target es + 1 else 0

/-- Turn an index into a position (`none` when out of range). -/
def posOf (len i : Nat) : Option Nat := if i < len then some i else none

/-- Models `iterator.seek(target)`. -/
def seekPos {K V : Type} (enc : K → List Nat) (target : List Nat)
    (es : List (K × V)) : Option Nat :=
  posOf es.length (seekIdx enc target es)

/-- Models `iterator.next()`. -/
def posNext {K V : Type} (es : List (K × V)) : Option Nat → Option Nat
  | none => none
  | some i => if i + 1 < es.length then some (i + 1) else none

/-- Models `iterator.prev()`. -/
def posPrev : Option Nat → Option Nat
  | none => none
  | some i => if i = 0 then none else some (i - 1)

/-- The (key, value) the iterator currently points at. -/
def entryAt {K V : Type} (es : List (K × V)) : Option Nat → Option (K × V)
  | none => none
  | some i => es.get? i

/-! ## Block range scan (`IndexDb::block_range`, indexdb.rs 166-183) -/

/-- The stores `block_range` reads: `block_height_idx` (height key encoded
as 4 big-endian bytes, value the 32-byte block hash) and `block_meta`
(hash to record; the record type is opaque to the scan). -/
structure BlockStore (B : Type) where
  blockHeightIdx : List (Nat × List Nat)
  blockMeta : List Nat → Option B

/-- The `for _ in 0..num_blocks` loop of `block_range`: read the value at
the iterator, `db_get` the block meta (an absent row is an error), push,
advance; stop early when the iterator is exhausted. -/
def blockRangeLoop {B : Type} (bm : List Nat → Option B)
    (es : List (Nat × List Nat)) :
    Nat → Option Nat → Except Unit (List (List Nat × B))
  | 0, _ => Except.ok []
  | num + 1, p =>
    match entryAt es p with
    | none => Except.ok []
    | some e =>
      match bm e.2 with
      | none => Except.error ()
      | some m =>
        (blockRangeLoop bm es num (posNext es p)).map (fun r => (e.2, m) :: r)

/-- Models `IndexDb::block_range`: seek `block_height_idx` to the BE-encoded
start height and run the loop for `num_blocks` iterations. -/
def blockRange {B : Type} (st : BlockStore B) (start num : Nat) :
    Except Unit (List (List Nat × B)) :=
  blockRangeLoop st.blockMeta st.blockHeightIdx num
    (seekPos (fun h => beBytes4 h) (beBytes4 start) st.blockHeightIdx)

/-- Model of the SPEC's words for claim C4 (not of the code): return the
(hash, meta) pairs of at most `num` consecutive heights starting at
`start`, stopping at the first height absent from the index. -/
def blockRangeSpecModel {B : Type} (st : BlockStore B) :
    Nat → Nat → List (List Nat × B)
  | _, 0 => []
  | h, num + 1 =>
    match (st.blockHeightIdx.find? (fun e => e.1 == h)).map (fun e => e.2) with
    | none => []
    | some hash =>
      match st.blockMeta hash with
      | none => []
      | some m => (hash, m) :: blockRangeSpecModel st (h + 1) num

/-- A standard 25-byte P2PKH output script over the 20-byte hash `5…5`. -/
def exP2pkhScript : List Nat :=
  [OP_DUP, OP_HASH160, 20] ++ List.replicate 20 5 ++ [OP_EQUALVERIFY, OP_CHECKSIG]

/-- Example coinbase-style transaction paying 50 sats to `exP2pkhScript`
(the paying script appears in no input). Used by the C8 witness. -/
def exTxPayOut : Transaction :=
  { hash := List.replicate 32 9, blockHeight := 7, timestamp := 0, size := 120,
    inputs := [⟨some ⟨List.replicate 32 0, 4294967295⟩, [], 0, none⟩],
    outputs := [⟨exP2pkhScript, 50, none⟩],
    slpTransactionInfo := none }

/-- The transaction `exTxPayOut` as an unconfirmed transaction (`block_height = -1`, as
`make_mempool_tx_batches` sees it). Used by the C10 witness. -/
def exTxMempool : Transaction :=
  { exTxPayOut with blockHeight := -1 }

/-- Example transaction with no SLP info (used by the C2 witness). -/
def exTxNoSlp : Transaction :=
  { hash := List.replicate 32 2, blockHeight := 3, timestamp := 0, size := 100,
    inputs := [], outputs := [], slpTransactionInfo := none }

/-- Example UnknownOrInvalid transaction burning 700 tokens (C2 witness). -/
def exTxInvalid : Transaction :=
  { hash := List.replicate 32 2, blockHeight := 3, timestamp := 0, size := 100,
    inputs := [⟨none, [], 10, some ⟨700⟩⟩], outputs := [],
    slpTransactionInfo :=
      some ⟨ValidityJudgement.unknownOrInvalid, BchSlpAction.slpV1Send,
        List.replicate 32 7⟩ }

/-- Example Valid SlpV1Send transaction moving 1000 tokens (C2 witness). -/
def exTxValidSend : Transaction :=
  { hash := List.replicate 32 2, blockHeight := 3, timestamp := 0, size := 100,
    inputs := [⟨none, [], 10, some ⟨1000⟩⟩],
    outputs := [⟨[], 5, some ⟨400⟩⟩, ⟨[], 5, some ⟨600⟩⟩],
    slpTransactionInfo :=
      some ⟨ValidityJudgement.valid, BchSlpAction.slpV1Send, List.replicate 32 7⟩ }

/-- Block hash for the height-5 entry of the C4 example store. -/
def exBlockHash5 : List Nat := List.replicate 32 55

/-- Block hash for the height-10 entry of the C4 example store. -/
def exBlockHash10 : List Nat := List.replicate 32 56

/-- C4 example store: blocks at heights 5 and 10 only. -/
def exBlockStore : BlockStore Nat :=
  { blockHeightIdx := [(5, exBlockHash5), (10, exBlockHash10)],
    blockMeta := fun h =>
      if h = exBlockHash5 then some 50
      else if h = exBlockHash10 then some 100
      else none }

/-! ## Paginated address history (`IndexDb::address`, indexdb.rs 243-302) -/

/-- The stores `IndexDb::address` reads: the mempool and confirmed
address-tx column families (sorted by encoded `AddrTxKey`), plus the two
tx_meta column families its per-row `tx_meta` overlay lookup uses. -/
structure AddrTxStore where
  mempoolAddrTx : List (AddrTxKey × AddressTx)
  confirmedAddrTx : List (AddrTxKey × AddressTx)
  mempoolTxMeta : List Nat → Option TxMeta
  confirmedTxMeta : List Nat → Option TxMeta

/-- Models `IndexDb::tx_meta` (indexdb.rs 196-201): mempool CF first, else
confirmed CF. -/
def txMetaRead (st : AddrTxStore) (h : List Nat) : Option TxMeta :=
  match st.mempoolTxMeta h with
  | some m => some m
  | none => st.confirmedTxMeta h

/-- The skip loops of `IndexDb::address`:
`for _ in 0..k { if !iter.valid() { break; } iter.step(); }` — k raw
iterator steps, stopping early only when the iterator goes invalid. -/
def skipLoop (step : Option Nat → Option Nat) : Nat → Option Nat → Option Nat
  | 0, p => p
  | k + 1, p =>
    match p with
    | none => none
    | some i => skipLoop step k (step (some i))

/-- The collect loop shared (up to the step direction) by the two halves
of `IndexDb::address`: while the iterator is valid, stop when `take`
entries have been collected in total (`n` counts across both halves) or
when the key's 20-byte addr_hash no longer matches; otherwise resolve the
row's tx_meta through the overlay (an absent row is an error), emit
(tx_hash, AddressTx, TxMeta) and step.  Fuel bounds the loop; every call
passes `length + 1`, which the strictly-moving position can never
exhaust. -/
def collectLoop (es : List (AddrTxKey × AddressTx)) (step : Option Nat → Option Nat)
    (tm : List Nat → Option TxMeta) (addrHash : List Nat) (take : Nat) :
    Nat → Option Nat → Nat →
      Except Unit (List (List Nat × AddressTx × TxMeta) × Nat)
  | 0, _, n => Except.ok ([], n)
  | fuel + 1, p, n =>
    match entryAt es p with
    | none => Except.ok ([], n)
    | some e =>
      if take ≤ n then Except.ok ([], n)
      else if e.1.addrHash ≠ addrHash then Except.ok ([], n)
      else
        match tm e.1.txHash with
        | none => Except.error ()
        | some meta =>
          (collectLoop es step tm addrHash take fuel (step p) (n + 1)).map
            (fun r => ((e.1.txHash, e.2, meta) :: r.1, r.2))

/-- Models `IndexDb::address`: seek the mempool CF to the 21-byte address prefix,
take `skip` raw forward steps, collect forward; then seek the confirmed CF
to `inc_bytes(prefix)`, step back once, take `skip - n` raw backward steps
(n = number of entries the mempool half returned), collect backward. -/
def addressQuery (st : AddrTxStore) (addrType : Nat) (addrHash : List Nat)
    (skip take : Nat) : Except Unit (List (List Nat × AddressTx × TxMeta)) :=
  let pfx := addrType :: addrHash
  let es1 := st.mempoolAddrTx
  let p1 := skipLoop (posNext es1) skip (seekPos AddrTxKey.encode pfx es1)
  match collectLoop es1 (posNext es1) (txMetaRead st) addrHash take
      (es1.length + 1) p1 0 with
  | Except.error e => Except.error e
  | Except.ok (ent1, n) =>
    let es2 := st.confirmedAddrTx
    let p2 := skipLoop posPrev (skip - n)
      (posPrev (seekPos AddrTxKey.encode (incBytes pfx) es2))
    match collectLoop es2 posPrev (txMetaRead st) addrHash take
        (es2.length + 1) p2 n with
    | Except.error e => Except.error e
    | Except.ok (ent2, _) => Except.ok (ent1 ++ ent2)

/-- Model of the SPEC's words for claim C3 (not of the code): the
address's own mempool entries in ascending key order, then its own
confirmed entries in reverse key order, with `skip`/`take` paginating that
single concatenated stream; returns the tx hashes. -/
def addressSpecModel (st : AddrTxStore) (addrType : Nat) (addrHash : List Nat)
    (skip take : Nat) : List (List Nat) :=
  let mine := fun (e : AddrTxKey × AddressTx) =>
    e.1.addrType == addrType && e.1.addrHash == addrHash
  ((((st.mempoolAddrTx.filter mine) ++
      (st.confirmedAddrTx.filter mine).reverse).map
    (fun e => e.1.txHash)).drop skip).take take

/-- A minimal TxMeta record used by the C3 example store. -/
def exMeta (ht : Int) : TxMeta :=
  { blockHeight := ht, timestamp := 0, isCoinbase := false, size := 0,
    numInputs := 0, numOutputs := 0, satsInput := 0, satsOutput := 0,
    variant := TxMetaVariant.satsOnly }

/-- C3 example store: address (type 0, hash 5…5) has one mempool entry and
two confirmed entries (heights 1 and 2); a larger foreign address follows
in the confirmed CF so the reverse seek lands on a real key. -/
def exAddrStore : AddrTxStore :=
  { mempoolAddrTx :=
      [(⟨0, List.replicate 20 5, 4294967295, List.replicate 32 21⟩,
        ⟨0, -1, 50, 0⟩)],
    confirmedAddrTx :=
      [(⟨0, List.replicate 20 5, 1, List.replicate 32 31⟩, ⟨0, 1, 30, 0⟩),
       (⟨0, List.replicate 20 5, 2, List.replicate 32 32⟩, ⟨0, 2, 40, 0⟩),
       (⟨1, List.replicate 20 9, 0, List.replicate 32 33⟩, ⟨0, 0, 10, 0⟩)],
    mempoolTxMeta := fun _ => none,
    confirmedTxMeta := fun h =>
      if h = List.replicate 32 21 then some (exMeta (-1))
      else if h = List.replicate 32 31 then some (exMeta 1)
      else if h = List.replicate 32 32 then some (exMeta 2)
      else if h = List.replicate 32 33 then some (exMeta 0)
      else none }

/-- C8 counterexample transaction: a single output pays `exP2pkhScript`
546 sats together with an SLP amount of 2^63; the script appears in no
input.  `slp.amount as i64` is then `-2^63`. -/
def exTxBigToken : Transaction :=
  { hash := List.replicate 32 11, blockHeight := 9, timestamp := 0, size := 150,
    inputs := [⟨some ⟨List.replicate 32 0, 4294967295⟩, [], 0, none⟩],
    outputs := [⟨exP2pkhScript, 546, some ⟨9223372036854775808⟩⟩],
    slpTransactionInfo :=
      some ⟨ValidityJudgement.valid, BchSlpAction.slpV1Send, List.replicate 32 8⟩ }

/-- C8 witness transaction: a single output pays `exP2pkhScript` 5 sats
with a small SLP amount (600); the script appears in no input. -/
def exTxTokenPay : Transaction :=
  { hash := List.replicate 32 12, blockHeight := 8, timestamp := 0, size := 130,
    inputs := [⟨some ⟨List.replicate 32 0, 4294967295⟩, [], 0, none⟩],
    outputs := [⟨exP2pkhScript, 5, some ⟨600⟩⟩],
    slpTransactionInfo :=
      some ⟨ValidityJudgement.valid, BchSlpAction.slpV1Send, List.replicate 32 8⟩ }

/-! ## Search (`IndexDb::search`, indexdb.rs 367-390, and the hex codec
of `blockchain.rs`) -/

/-- Value of one hex digit (0-9, a-f, A-F). -/
def hexDigitVal (c : Char) : Option Nat :=
  if 48 ≤ c.toNat ∧ c.toNat ≤ 57 then some (c.toNat - 48)
  else if 97 ≤ c.toNat ∧ c.toNat ≤ 102 then some (c.toNat - 87)
  else if 65 ≤ c.toNat ∧ c.toNat ≤ 70 then some (c.toNat - 55)
  else none

/-- Models `hex::decode`: fails on odd length or any non-hex character. -/
def hexDecode : List Char → Option (List Nat)
  | [] => some []
  | [_] => none
  | c1 :: c2 :: rest =>
    match hexDigitVal c1, hexDigitVal c2, hexDecode rest with
    | some hi, some lo, some bs => some ((hi * 16 + lo) :: bs)
    | _, _, _ => none

/-- Models `from_le_hex` (blockchain.rs): hex-decode then reverse the bytes. -/
def fromLeHex (s : List Char) : Option (List Nat) :=
  (hexDecode s).map List.reverse

/-- Value of one decimal digit. -/
def decDigitVal (c : Char) : Option Nat :=
  if 48 ≤ c.toNat ∧ c.toNat ≤ 57 then some (c.toNat - 48) else none

/-- Accumulate a decimal value over the remaining digit characters. -/
def decValueAux : Nat → List Char → Option Nat
  | acc, [] => some acc
  | acc, c :: cs =>
    match decDigitVal c with
    | some d => decValueAux (acc * 10 + d) cs
    | none => none

/-- Rust `str::parse::<u32>().unwrap_or_default()`: an optional leading
`+`, then at least one digit, value below `2^32`; every failure yields
0. -/
def parseU32 (s : List Char) : Nat :=
  let body := match s with
    | '+' :: rest => rest
    | _ => s
  match body with
  | [] => 0
  | _ =>
    match decValueAux 0 body with
    | some v => if v < 2 ^ 32 then v else 0
    | none => 0

/-- The reads `IndexDb::search` performs: the tx_meta overlay lookup, the
`block_meta` point lookup and `block_hash_at` (the record type of
block_meta is opaque here). -/
structure SearchDb (B : Type) where
  txMeta : List Nat → Option TxMeta
  blockMeta : List Nat → Option B
  blockHashAt : Nat → Option (List Nat)

/-- Models `IndexDb::search`.  `addrDecode` abstracts the external
`Address::from_cash_addr` (returning the canonical `cash_addr()` text on
success).  The `?` on `from_le_hex` makes a non-hex query an error.  In
the `block_height == 0` arm the source matches `Ok(_)` on the
`block_meta` read, which a present AND an absent row both satisfy — both
arms therefore return the `/block/` path. -/
def search {B : Type} (addrDecode : List Char → Option (List Char))
    (db : SearchDb B) (query : List Char) : Except Unit (Option (List Char)) :=
  match addrDecode query with
  | some cashAddr => Except.ok (some ("/address/".toList ++ cashAddr))
  | none =>
    match fromLeHex query with
    | none => Except.error ()
    | some bytes =>
      match db.txMeta bytes with
      | some _ => Except.ok (some ("/tx/".toList ++ query))
      | none =>
        let blockHeight := parseU32 query
        if blockHeight = 0 then
          match db.blockMeta bytes with
          | some _ => Except.ok (some ("/block/".toList ++ query))
          | none => Except.ok (some ("/block/".toList ++ query))
        else
          match db.blockHashAt blockHeight with
          | some _ =>
            Except.ok (some ("/block-height/".toList ++ Nat.toDigits 10 blockHeight))
          | none => Except.ok none

/-- C5 example store: empty database (no txs, no blocks). -/
def exSearchDbEmpty : SearchDb Nat :=
  { txMeta := fun _ => none, blockMeta := fun _ => none,
    blockHashAt := fun _ => none }

/-- C5 example store: a block exists at height 700000. -/
def exSearchDbBlock : SearchDb Nat :=
  { txMeta := fun _ => none, blockMeta := fun _ => none,
    blockHashAt := fun h => if h = 700000 then some (List.replicate 32 3) else none }

/-! ## Indexer pipeline (`IndexerProduction::run_indexer_inner`,
indexer.rs 114-172, and `index_thread`, indexer.rs 71-112) -/

/-- Models `IndexDb::last_block_height` (indexdb.rs 153-164): `seek_to_last` on
`block_height_idx` — the height of the last (largest-key) entry, or 0 on
an empty index. -/
def lastBlockHeight {B : Type} (st : BlockStore B) : Nat :=
  match st.blockHeightIdx.getLast? with
  | some e => e.1
  | none => 0

/-- The initial value of the shared height counter (indexer.rs 115-116):
`AtomicUsize::new(last_height)` with `last_height = last_block_height()`. -/
def currentHeightAtomicInit (lastHeight : Nat) : Nat := lastHeight

/-- The i-th result of `current_height_atomic.fetch_add(1)` (indexer.rs
80): the i-th height a fetcher claims and requests from the chain
source. -/
def claimedHeight (init i : Nat) : Nat := init + i

/-- State of the commit loop (indexer.rs 132-158): the reorder buffer
`block_shelf` (a height-keyed map), the next height to apply
(`current_height`), and the trace of heights whose batches have been
applied, in application order. -/
structure CommitState (B : Type) where
  shelf : List (Nat × B)
  currentHeight : Nat
  applied : List Nat

/-- Models `HashMap::insert`: replace any existing entry at the key. -/
def shelfInsert {B : Type} (shelf : List (Nat × B)) (h : Nat) (b : B) :
    List (Nat × B) :=
  (h, b) :: shelf.filter (fun e => e.1 ≠ h)

/-- Models `HashMap::contains_key`. -/
def shelfContains {B : Type} (shelf : List (Nat × B)) (h : Nat) : Bool :=
  shelf.any (fun e => e.1 == h)

/-- Models `HashMap::remove` (the popped value itself is the applied batch). -/
def shelfRemove {B : Type} (shelf : List (Nat × B)) (h : Nat) :
    List (Nat × B) :=
  shelf.filter (fun e => e.1 ≠ h)

/-- The inner `while block_shelf.contains_key(&current_height)` loop:
pop the batch at `current_height`, apply it (append the height to the
trace), advance `current_height`, broadcast it.  Fuel bounds the loop;
each iteration removes a shelf entry, so the shelf size (always passed)
cannot be exhausted. -/
def drainShelf {B : Type} : Nat → CommitState B → CommitState B
  | 0, st => st
  | fuel + 1, st =>
    if shelfContains st.shelf st.currentHeight then
      drainShelf fuel
        { shelf := shelfRemove st.shelf st.currentHeight,
          currentHeight := st.currentHeight + 1,
          applied := st.applied ++ [st.currentHeight] }
    else st

/-- The commit loop over the arrival order of fetched batches
(`while let Some(block_batches) = receive_batches.recv()`): stash the
arrival in the shelf, then drain. -/
def commitLoop {B : Type} (init : Nat) (arrivals : List (Nat × B)) :
    CommitState B :=
  arrivals.foldl
    (fun st a =>
      drainShelf (shelfInsert st.shelf a.1 a.2).length
        { st with shelf := shelfInsert st.shelf a.1 a.2 })
    { shelf := [], currentHeight := init, applied := [] }

end Explorer

namespace Explorer


theorem wrapI64_range (a : Int) : -(2 ^ 63) ≤ wrapI64 a ∧ wrapI64 a < 2 ^ 63 := by
  unfold wrapI64
  omega

theorem wrapI64_of_range {a : Int} (h1 : -(2 ^ 63) ≤ a) (h2 : a < 2 ^ 63) :
    wrapI64 a = a := by
  unfold wrapI64
  omega

theorem wrapI64_sub_left (a b : Int) : wrapI64 (wrapI64 a - b) = wrapI64 (a - b) := by
  unfold wrapI64
  omega

theorem wrapI64_add_left (a b : Int) : wrapI64 (wrapI64 a + b) = wrapI64 (a + b) := by
  unfold wrapI64
  omega

theorem foldl_delta_wrap_sub {α : Type} (l : List α) (key : α → List Nat)
    (f g : α → Int) (s : List Nat) :
    ∀ m0 : List Nat → Int × Int,
      -(2 ^ 63) ≤ (m0 s).1 → (m0 s).1 < 2 ^ 63 →
      -(2 ^ 63) ≤ (m0 s).2 → (m0 s).2 < 2 ^ 63 →
      (l.foldl
        (fun m x => fun t =>
          if t = key x then (wrapI64 ((m t).1 - f x), wrapI64 ((m t).2 - g x))
          else m t) m0) s =
        (wrapI64 ((m0 s).1 - ((l.filter (fun x => key x == s)).map f).sum),
          wrapI64 ((m0 s).2 - ((l.filter (fun x => key x == s)).map g).sum)) := by
  induction l with
  | nil =>
    intro m0 ha hb hc hd
    simp [wrapI64_of_range ha hb, wrapI64_of_range hc hd]
  | cons x l ih =>
    intro m0 ha hb hc hd
    rw [List.foldl_cons, List.filter_cons]
    by_cases hx : key x = s
    · rw [ih _ (by rw [if_pos hx.symm]; exact (wrapI64_range _).1)
        (by rw [if_pos hx.symm]; exact (wrapI64_range _).2)
        (by rw [if_pos hx.symm]; exact (wrapI64_range _).1)
        (by rw [if_pos hx.symm]; exact (wrapI64_range _).2)]
      rw [if_pos hx.symm]
      simp only [hx, beq_self_eq_true, if_true, List.map_cons, List.sum_cons]
      rw [wrapI64_sub_left, wrapI64_sub_left]
      simp only [Prod.mk.injEq]
      constructor <;> (apply congrArg; ring)
    · rw [ih _ (by rw [if_neg (fun h => hx h.symm)]; exact ha)
        (by rw [if_neg (fun h => hx h.symm)]; exact hb)
        (by rw [if_neg (fun h => hx h.symm)]; exact hc)
        (by rw [if_neg (fun h => hx h.symm)]; exact hd)]
      rw [if_neg (fun h => hx h.symm)]
      simp [hx]

theorem foldl_delta_wrap_add {α : Type} (l : List α) (key : α → List Nat)
    (f g : α → Int) (s : List Nat) :
    ∀ m0 : List Nat → Int × Int,
      -(2 ^ 63) ≤ (m0 s).1 → (m0 s).1 < 2 ^ 63 →
      -(2 ^ 63) ≤ (m0 s).2 → (m0 s).2 < 2 ^ 63 →
      (l.foldl
        (fun m x => fun t =>
          if t = key x then (wrapI64 ((m t).1 + f x), wrapI64 ((m t).2 + g x))
          else m t) m0) s =
        (wrapI64 ((m0 s).1 + ((l.filter (fun x => key x == s)).map f).sum),
          wrapI64 ((m0 s).2 + ((l.filter (fun x => key x == s)).map g).sum)) := by
  induction l with
  | nil =>
    intro m0 ha hb hc hd
    simp [wrapI64_of_range ha hb, wrapI64_of_range hc hd]
  | cons x l ih =>
    intro m0 ha hb hc hd
    rw [List.foldl_cons, List.filter_cons]
    by_cases hx : key x = s
    · rw [ih _ (by rw [if_pos hx.symm]; exact (wrapI64_range _).1)
        (by rw [if_pos hx.symm]; exact (wrapI64_range _).2)
        (by rw [if_pos hx.symm]; exact (wrapI64_range _).1)
        (by rw [if_pos hx.symm]; exact (wrapI64_range _).2)]
      rw [if_pos hx.symm]
      simp only [hx, beq_self_eq_true, if_true, List.map_cons, List.sum_cons]
      rw [wrapI64_add_left, wrapI64_add_left]
      simp only [Prod.mk.injEq]
      constructor <;> (apply congrArg; ring)
    · rw [ih _ (by rw [if_neg (fun h => hx h.symm)]; exact ha)
        (by rw [if_neg (fun h => hx h.symm)]; exact hb)
        (by rw [if_neg (fun h => hx h.symm)]; exact hc)
        (by rw [if_neg (fun h => hx h.symm)]; exact hd)]
      rw [if_neg (fun h => hx h.symm)]
      simp [hx]

/-- The accumulated delta at script `s` is the i64-wrapped difference of
output and input sums. -/
theorem addressDelta_eq (tx : Transaction) (s : List Nat) :
    addressDelta tx s =
      (wrapI64 (scriptOutputSats tx s - scriptInputSats tx s),
        wrapI64 (scriptOutputTokens tx s - scriptInputTokens tx s)) := by
  have hin := foldl_delta_wrap_sub tx.inputs (fun i => i.previousScript)
    (fun i => i.value)
    (fun i => (i.slpToken.map (fun slp => i64OfU64 slp.amount)).getD 0) s
    (fun _ => ((0 : Int), (0 : Int))) (by norm_num) (by norm_num)
    (by norm_num) (by norm_num)
  unfold addressDelta
  dsimp only
  rw [foldl_delta_wrap_add tx.outputs (fun o => o.pubkeyScript)
    (fun o => o.value)
    (fun o => (o.slpToken.map (fun slp => i64OfU64 slp.amount)).getD 0) s
    _ (by rw [hin]; exact (wrapI64_range _).1)
    (by rw [hin]; exact (wrapI64_range _).2)
    (by rw [hin]; exact (wrapI64_range _).1)
    (by rw [hin]; exact (wrapI64_range _).2)]
  rw [hin]
  dsimp only
  rw [wrapI64_add_left, wrapI64_add_left]
  simp only [scriptOutputSats, scriptInputSats, scriptOutputTokens,
    scriptInputTokens, Prod.mk.injEq]
  constructor <;> (apply congrArg; ring)

theorem bytesLt_append_same (p x y : List Nat) :
    bytesLt (p ++ x) (p ++ y) = bytesLt x y := by
  induction p with
  | nil => rfl
  | cons a p ih => simp [bytesLt, ih]

theorem bytesLt_beBytes4 {h1 h2 : Nat} (hlt : h1 < h2) (hub : h2 < 2 ^ 32)
    (s1 s2 : List Nat) : bytesLt (beBytes4 h1 ++ s1) (beBytes4 h2 ++ s2) = true := by
  have hub2 : h2 < 4294967296 := by omega
  simp only [beBytes4, List.cons_append, List.nil_append]
  by_cases c3 : h1 / 16777216 % 256 < h2 / 16777216 % 256
  · simp [bytesLt]
    omega
  · have e3 : h1 / 16777216 % 256 = h2 / 16777216 % 256 := by omega
    by_cases c2 : h1 / 65536 % 256 < h2 / 65536 % 256
    · simp [bytesLt]
      omega
    · have e2 : h1 / 65536 % 256 = h2 / 65536 % 256 := by omega
      by_cases c1 : h1 / 256 % 256 < h2 / 256 % 256
      · simp [bytesLt]
        omega
      · have e1 : h1 / 256 % 256 = h2 / 256 % 256 := by omega
        have c0 : h1 % 256 < h2 % 256 := by omega
        simp [bytesLt]
        omega

theorem bytesLt_irrefl (x : List Nat) : bytesLt x x = false := by
  induction x with
  | nil => rfl
  | cons a as ih => simp [bytesLt, ih]

theorem bytesLt_asymm : ∀ {x y : List Nat}, bytesLt x y = true → bytesLt y x = false
  | [], [], h => by simp [bytesLt] at h
  | [], _ :: _, _ => by simp [bytesLt]
  | _ :: _, [], h => by simp [bytesLt] at h
  | a :: as, b :: bs, h => by
    simp only [bytesLt, Bool.or_eq_true, Bool.and_eq_true, decide_eq_true_eq,
      beq_iff_eq] at h
    rcases h with h | ⟨rfl, h⟩
    · have h1 : ¬ b < a := by omega
      have h2 : b ≠ a := by omega
      simp [bytesLt, h1, h2]
    · have hr := bytesLt_asymm h
      simp [bytesLt, hr]

theorem beBytes4_lt_iff {a b : Nat} (ha : a < 2 ^ 32) (hb : b < 2 ^ 32) :
    bytesLt (beBytes4 a) (beBytes4 b) = true ↔ a < b := by
  constructor
  · intro h
    by_contra hab
    rcases Nat.lt_or_ge b a with hba | hba
    · have h2 := bytesLt_beBytes4 hba ha [] []
      rw [List.append_nil, List.append_nil] at h2
      have := bytesLt_asymm h2
      rw [this] at h
      exact Bool.false_ne_true h
    · have : a = b := by omega
      subst this
      rw [bytesLt_irrefl] at h
      exact Bool.false_ne_true h
  · intro h
    have h2 := bytesLt_beBytes4 h hb [] []
    rwa [List.append_nil, List.append_nil] at h2

theorem seekIdx_be_drop (start : Nat) (es : List (Nat × List Nat))
    (hsorted : es.Pairwise (fun a b => a.1 < b.1))
    (hbound : ∀ e ∈ es, e.1 < 2 ^ 32) (hstart : start < 2 ^ 32) :
    es.drop (seekIdx (fun h => beBytes4 h) (beBytes4 start) es) =
      es.filter (fun e => start ≤ e.1) := by
  induction es with
  | nil => simp [seekIdx]
  | cons e es ih =>
    rw [List.pairwise_cons] at hsorted
    have he1 : e.1 < 2 ^ 32 := hbound e (List.mem_cons_self e es)
    by_cases hlt : e.1 < start
    · have hb : bytesLt (beBytes4 e.1) (beBytes4 start) = true :=
        (beBytes4_lt_iff he1 hstart).mpr hlt
      rw [List.filter_cons_of_neg (by simpa using hlt)]
      simp only [seekIdx, hb, if_true, List.drop_succ_cons]
      exact ih hsorted.2 (fun x hx => hbound x (List.mem_cons_of_mem e hx))
    · have hb : bytesLt (beBytes4 e.1) (beBytes4 start) = false := by
        rw [← Bool.not_eq_true, (beBytes4_lt_iff he1 hstart)]
        exact hlt
      have hle : start ≤ e.1 := Nat.le_of_not_lt hlt
      rw [List.filter_cons_of_pos (by simpa using hle)]
      simp only [seekIdx, hb, if_false, Bool.false_eq_true, List.drop_zero]
      have : es.filter (fun x => start ≤ x.1) = es :=
        List.filter_eq_self.mpr
          (fun x hx => by simpa using Nat.le_of_lt (Nat.lt_of_le_of_lt hle (hsorted.1 x hx)))
      rw [this]

theorem posNext_posOf {K V : Type} (es : List (K × V)) (i : Nat) (hi : i < es.length) :
    posNext es (posOf es.length i) = posOf es.length (i + 1) := by
  simp [posNext, posOf, hi]

theorem blockRangeLoop_drop {B : Type} (bm : List Nat → Option B) (f : Nat × List Nat → B)
    (es : List (Nat × List Nat)) (hmeta : ∀ e ∈ es, bm e.2 = some (f e)) :
    ∀ (num i : Nat),
      blockRangeLoop bm es num (posOf es.length i) =
        Except.ok (((es.drop i).take num).map (fun e => (e.2, f e))) := by
  intro num
  induction num with
  | zero => intro i; simp [blockRangeLoop]
  | succ num ih =>
    intro i
    by_cases hi : i < es.length
    · have hget : es.get? i = some (es.get ⟨i, hi⟩) := List.get?_eq_get hi
      have hdrop : es.drop i = es.get ⟨i, hi⟩ :: es.drop (i + 1) := by
        rw [List.drop_eq_getElem_cons hi]
        rfl
      have hmem : es.get ⟨i, hi⟩ ∈ es := List.get_mem es i hi
      rw [blockRangeLoop]
      simp only [entryAt, posOf, hi, if_true, hget, hmeta _ hmem]
      have hnx : posNext es (some i) = posOf es.length (i + 1) := rfl
      rw [hnx, ih (i + 1), hdrop]
      rw [List.take_succ_cons, List.map_cons]
      rfl
    · have hnone : posOf es.length i = none := by simp [posOf, hi]
      have hdrop : es.drop i = [] := List.drop_eq_nil_of_le (Nat.le_of_not_lt hi)
      rw [blockRangeLoop, hnone]
      simp [entryAt, hdrop]

/-- Claim C4 counterexample: with blocks only at heights 5 and 10,
`block_range(3, 2)` returns the entries at heights 5 and 10 — the absent
height 3 does not stop the scan, entries at larger heights are returned in
its place, and the first returned entry is not at the start height — while
the claim's stop-at-first-gap reading returns the empty list. -/
theorem block_range_counterexample :
    blockRange exBlockStore 3 2 =
      Except.ok [(exBlockHash5, 50), (exBlockHash10, 100)] ∧
    blockRangeSpecModel exBlockStore 3 2 = [] := by
  exact ⟨rfl, rfl⟩

/-- Claim C4 (amended): `block_range(start, n)` seeks to the first indexed
height `≥ start` and returns the next at most n present heights in
ascending order regardless of gaps (each with its block_meta record, which
must be present); equivalently, the first n entries of the height index
with height `≥ start`. -/
theorem block_range_amended {B : Type} (st : BlockStore B)
    (f : Nat × List Nat → B) (start num : Nat)
    (hsorted : st.blockHeightIdx.Pairwise (fun a b => a.1 < b.1))
    (hbound : ∀ e ∈ st.blockHeightIdx, e.1 < 2 ^ 32)
    (hstart : start < 2 ^ 32)
    (hmeta : ∀ e ∈ st.blockHeightIdx, st.blockMeta e.2 = some (f e)) :
    blockRange st start num =
      Except.ok
        (((st.blockHeightIdx.filter (fun e => start ≤ e.1)).take num).map
          (fun e => (e.2, f e))) := by
  unfold blockRange seekPos
  rw [blockRangeLoop_drop st.blockMeta f st.blockHeightIdx hmeta num _,
    seekIdx_be_drop start st.blockHeightIdx hsorted hbound hstart]

/-- Concrete witness for the amended C4: on the example store the scan
starting at 3 returns the height-5 and height-10 entries. -/
theorem block_range_amended_witness :
    blockRange exBlockStore 3 2 =
      Except.ok [(exBlockHash5, 50), (exBlockHash10, 100)] := by
  have h := block_range_amended exBlockStore
    (fun e => if e.1 = 5 then 50 else 100) 3 2
    (by decide) (by decide) (by norm_num) (by decide)
  simpa using h

theorem collectLoop_take_zero (es : List (AddrTxKey × AddressTx))
    (step : Option Nat → Option Nat) (tm : List Nat → Option TxMeta)
    (addrHash : List Nat) (fuel : Nat) (p : Option Nat) (n : Nat) :
    collectLoop es step tm addrHash 0 fuel p n = Except.ok ([], n) := by
  cases fuel with
  | zero => rfl
  | succ fuel =>
    rw [collectLoop]
    cases entryAt es p with
    | none => rfl
    | some e => simp

theorem collectLoop_length (es : List (AddrTxKey × AddressTx))
    (step : Option Nat → Option Nat) (tm : List Nat → Option TxMeta)
    (addrHash : List Nat) (take : Nat) :
    ∀ (fuel : Nat) (p : Option Nat) (n n' : Nat)
      (l : List (List Nat × AddressTx × TxMeta)),
      collectLoop es step tm addrHash take fuel p n = Except.ok (l, n') →
      n' = n + l.length ∧ (n ≤ take → n' ≤ take) := by
  intro fuel
  induction fuel with
  | zero =>
    intro p n n' l h
    rw [collectLoop] at h
    simp at h
    rcases h with ⟨rfl, rfl⟩
    simp
  | succ fuel ih =>
    intro p n n' l h
    rw [collectLoop] at h
    cases hent : entryAt es p with
    | none =>
      rw [hent] at h
      simp at h
      rcases h with ⟨rfl, rfl⟩
      simp
    | some e =>
      rw [hent] at h
      dsimp only at h
      by_cases htn : take ≤ n
      · rw [if_pos htn] at h
        simp at h
        rcases h with ⟨rfl, rfl⟩
        simp
      · rw [if_neg htn] at h
        by_cases hh : e.1.addrHash ≠ addrHash
        · rw [if_pos hh] at h
          simp at h
          rcases h with ⟨rfl, rfl⟩
          simp
        · rw [if_neg hh] at h
          cases htm : tm e.1.txHash with
          | none =>
            rw [htm] at h
            exact absurd h (by simp)
          | some meta =>
            rw [htm] at h
            cases hrec : collectLoop es step tm addrHash take fuel (step p) (n + 1) with
            | error e2 =>
              rw [hrec] at h
              exact absurd h (by simp [Except.map])
            | ok r =>
              rw [hrec] at h
              simp [Except.map] at h
              rcases h with ⟨rfl, rfl⟩
              rcases ih (step p) (n + 1) r.2 r.1 hrec with ⟨h1, h2⟩
              constructor
              · simp [h1]
                omega
              · intro _
                exact h2 (by omega)

/-- Claim C3 counterexample: on `exAddrStore` (1 mempool entry, 2
confirmed entries for the address) the call `address(addr, skip 1,
take 1)` returns the tx at confirmed height 1, not — as spending the skip
across the concatenated mempool-then-confirmed-reversed stream of the
address's own entries would give — the tx at confirmed height 2: the
mempool half burns the full `skip` in raw iterator steps but reports
`n = 0` entries taken, so the confirmed half skips `skip - 0` entries
again. -/
theorem address_pagination_counterexample :
    (addressQuery exAddrStore 0 (List.replicate 20 5) 1 1).map
        (fun l => l.map (fun e => e.1)) =
      Except.ok [List.replicate 32 31] ∧
    addressSpecModel exAddrStore 0 (List.replicate 20 5) 1 1 =
      [List.replicate 32 32] := by
  exact ⟨rfl, rfl⟩

/-- Claim C3 (amended): `address(addr, skip, take)` returns at most `take`
entries, mempool entries (ascending) before confirmed entries
(descending); `address(addr, 0, 0)` returns `[]` without error; but the
skip count is NOT spent across the two streams as one paginated stream:
the mempool half takes `skip` raw iterator steps, and the confirmed half
then takes `skip - n` raw backward steps where n is the number of entries
the mempool half RETURNED (not the number of the address's mempool entries
skipped), so a skip exceeding the address's mempool entry count skips that
many confirmed entries over again — on the example store, skip 1 take 1
yields the height-1 entry instead of the height-2 entry. -/
theorem address_pagination_amended :
    (∀ (st : AddrTxStore) (t : Nat) (h : List Nat) (skip take : Nat)
      (l : List (List Nat × AddressTx × TxMeta)),
      addressQuery st t h skip take = Except.ok l → l.length ≤ take) ∧
    (∀ (st : AddrTxStore) (t : Nat) (h : List Nat),
      addressQuery st t h 0 0 = Except.ok []) ∧
    (addressQuery exAddrStore 0 (List.replicate 20 5) 1 1).map
        (fun l => l.map (fun e => e.1)) =
      Except.ok [List.replicate 32 31] := by
  refine ⟨?_, ?_, rfl⟩
  · intro st t h skip take l hq
    unfold addressQuery at hq
    dsimp only at hq
    cases hc1 : collectLoop st.mempoolAddrTx (posNext st.mempoolAddrTx)
        (txMetaRead st) h take (st.mempoolAddrTx.length + 1)
        (skipLoop (posNext st.mempoolAddrTx) skip
          (seekPos AddrTxKey.encode (t :: h) st.mempoolAddrTx)) 0 with
    | error e =>
      rw [hc1] at hq
      exact absurd hq (by simp)
    | ok r1 =>
      rw [hc1] at hq
      dsimp only at hq
      cases hc2 : collectLoop st.confirmedAddrTx posPrev (txMetaRead st) h take
          (st.confirmedAddrTx.length + 1)
          (skipLoop posPrev (skip - r1.2)
            (posPrev (seekPos AddrTxKey.encode (incBytes (t :: h))
              st.confirmedAddrTx))) r1.2 with
      | error e =>
        rw [hc2] at hq
        exact absurd hq (by simp)
      | ok r2 =>
        rw [hc2] at hq
        simp at hq
        rcases collectLoop_length _ _ _ _ _ _ _ _ _ _ hc1 with ⟨e1, e2⟩
        rcases collectLoop_length _ _ _ _ _ _ _ _ _ _ hc2 with ⟨e3, e4⟩
        have h1 : r1.2 ≤ take := e2 (Nat.zero_le take)
        have h2 : r2.2 ≤ take := e4 h1
        rw [← hq]
        simp
        omega
  · intro st t h
    unfold addressQuery
    dsimp only
    rw [collectLoop_take_zero]
    dsimp only
    rw [collectLoop_take_zero]
    rfl

/-- Concrete witness for the amended C3: on the example store `take = 1`
bounds the result length, and `(0, 0)` yields the empty list. -/
theorem address_pagination_amended_witness :
    (∃ l, addressQuery exAddrStore 0 (List.replicate 20 5) 1 1 = Except.ok l ∧
      l.length ≤ 1) ∧
    addressQuery exAddrStore 0 (List.replicate 20 5) 0 0 = Except.ok [] := by
  constructor
  · exact ⟨_, rfl, address_pagination_amended.1 exAddrStore 0
      (List.replicate 20 5) 1 1 _ rfl⟩
  · exact address_pagination_amended.2.1 exAddrStore 0 (List.replicate 20 5)

/-- Claim C5 counterexample: on an empty database, `search("ff")` returns
`Some("/block/ff")` even though no block with that hash exists (the
`Ok(_)` pattern also matches an absent row), and `search("zz")` and
`search("123")` (odd-length, so not valid hex) propagate a decode error
instead of returning `None` — `"123"` never reaches the integer branch. -/
theorem search_counterexample :
    search (fun _ => none) exSearchDbEmpty "ff".toList =
      Except.ok (some "/block/ff".toList) ∧
    exSearchDbEmpty.blockMeta [255] = none ∧
    search (fun _ => none) exSearchDbEmpty "zz".toList = Except.error () ∧
    search (fun _ => none) exSearchDbEmpty "123".toList = Except.error () := by
  exact ⟨rfl, rfl, rfl, rfl⟩

/-- Claim C5 (amended): search tries, in order: decode as cash address →
`/address/…`; else decode the query as little-endian hex, an invalid hex
query being an ERROR (not `None`); on a tx_meta hit → `/tx/query`; else
when the query parses as a NONZERO u32 h → `/block-height/h` exactly when
`block_hash_at(h)` is present, `None` otherwise; else (the query parses as
0 or fails to parse) → `/block/query` unconditionally — the block-by-hash
read's result is matched with `Ok(_)`, which an absent block also
satisfies. -/
theorem search_dispatch {B : Type} (addrDecode : List Char → Option (List Char))
    (db : SearchDb B) (q : List Char) :
    (∀ a, addrDecode q = some a →
      search addrDecode db q = Except.ok (some ("/address/".toList ++ a))) ∧
    (addrDecode q = none → fromLeHex q = none →
      search addrDecode db q = Except.error ()) ∧
    (∀ bytes m, addrDecode q = none → fromLeHex q = some bytes →
      db.txMeta bytes = some m →
      search addrDecode db q = Except.ok (some ("/tx/".toList ++ q))) ∧
    (∀ bytes, addrDecode q = none → fromLeHex q = some bytes →
      db.txMeta bytes = none → parseU32 q = 0 →
      search addrDecode db q = Except.ok (some ("/block/".toList ++ q))) ∧
    (∀ bytes h, addrDecode q = none → fromLeHex q = some bytes →
      db.txMeta bytes = none → parseU32 q ≠ 0 →
      db.blockHashAt (parseU32 q) = some h →
      search addrDecode db q =
        Except.ok (some ("/block-height/".toList ++ Nat.toDigits 10 (parseU32 q)))) ∧
    (∀ bytes, addrDecode q = none → fromLeHex q = some bytes →
      db.txMeta bytes = none → parseU32 q ≠ 0 →
      db.blockHashAt (parseU32 q) = none →
      search addrDecode db q = Except.ok none) := by
  refine ⟨fun a ha => ?_, fun ha hx => ?_, fun bytes m ha hx hm => ?_,
    fun bytes ha hx hm h0 => ?_, fun bytes h ha hx hm h0 hb => ?_,
    fun bytes ha hx hm h0 hb => ?_⟩
  · simp [search, ha]
  · simp [search, ha, hx]
  · simp [search, ha, hx, hm]
  · rcases hbm : db.blockMeta bytes with _ | m2 <;>
      simp [search, ha, hx, hm, h0, hbm]
  · simp [search, ha, hx, hm, h0, hb]
  · simp [search, ha, hx, hm, h0, hb]

/-- Concrete witness for the amended C5: `search("700000")` lands on
`/block-height/700000` when a block exists at that height, and on `None`
when not (the query "700000" is also valid hex, so it survives the decode
and misses the tx lookup first). -/
theorem search_dispatch_witness :
    search (fun _ => none) exSearchDbBlock "700000".toList =
      Except.ok (some "/block-height/700000".toList) ∧
    search (fun _ => none) exSearchDbEmpty "700000".toList =
      Except.ok none := by
  constructor
  · have h := (search_dispatch (fun _ => none) exSearchDbBlock
      "700000".toList).2.2.2.2.1 [0, 0, 112] (List.replicate 32 3)
      rfl rfl rfl (by decide) rfl
    simpa using h
  · exact (search_dispatch (fun _ => none) exSearchDbEmpty
      "700000".toList).2.2.2.2.2 [0, 0, 112] rfl rfl rfl (by decide) rfl

/-- Invariant preserved by the shelf drain: the applied trace is exactly
the consecutive heights from `init` up to `current_height`. -/
theorem drainShelf_invariant {B : Type} (init : Nat) :
    ∀ (fuel : Nat) (st : CommitState B),
      st.applied = List.range' init (st.currentHeight - init) →
      init ≤ st.currentHeight →
      (drainShelf fuel st).applied =
        List.range' init ((drainShelf fuel st).currentHeight - init) ∧
      init ≤ (drainShelf fuel st).currentHeight := by
  intro fuel
  induction fuel with
  | zero => intro st h1 h2; exact ⟨h1, h2⟩
  | succ fuel ih =>
    intro st h1 h2
    rw [drainShelf]
    by_cases hc : shelfContains st.shelf st.currentHeight
    · rw [if_pos hc]
      apply ih
      · have hcur : init + (st.currentHeight - init) = st.currentHeight := by omega
        have : st.currentHeight + 1 - init = (st.currentHeight - init) + 1 := by omega
        simp only [this, List.range'_concat, hcur]
        rw [h1]
        simp
        omega
      · show init ≤ st.currentHeight + 1
        omega
    · rw [if_neg hc]
      exact ⟨h1, h2⟩

/-- The commit loop's applied trace is the consecutive heights from
`init` up to its final `current_height`, whatever the arrival order. -/
theorem commitLoop_applied_range {B : Type} (init : Nat)
    (arrivals : List (Nat × B)) :
    (commitLoop init arrivals).applied =
      List.range' init ((commitLoop init arrivals).currentHeight - init) ∧
    init ≤ (commitLoop init arrivals).currentHeight := by
  unfold commitLoop
  generalize hst : ({ shelf := [], currentHeight := init, applied := [] } :
    CommitState B) = st0
  have h1 : st0.applied = List.range' init (st0.currentHeight - init) := by
    rw [← hst]; simp
  have h2 : init ≤ st0.currentHeight := by rw [← hst]
  clear hst
  induction arrivals generalizing st0 with
  | nil => exact ⟨h1, h2⟩
  | cons a l ih =>
    rw [List.foldl_cons]
    rcases drainShelf_invariant init (shelfInsert st0.shelf a.1 a.2).length
      { st0 with shelf := shelfInsert st0.shelf a.1 a.2 } h1 h2 with ⟨h3, h4⟩
    exact ih _ h3 h4

/-- Claim C6: whatever order batches arrive in, the commit loop stashes
them in the height-keyed reorder buffer and applies exactly the
consecutive heights from its starting point, in ascending order: the
applied trace is `init, init+1, …`; consequently a batch at height h+1 is
never applied before the batch at height h (for h at or above the starting
height). -/
theorem commit_order_strict {B : Type} (init : Nat)
    (arrivals : List (Nat × B)) :
    (commitLoop init arrivals).applied =
      List.range' init ((commitLoop init arrivals).applied).length ∧
    (∀ (i j h : Nat),
      ((commitLoop init arrivals).applied)[i]? = some (h + 1) →
      ((commitLoop init arrivals).applied)[j]? = some h →
      j < i) := by
  rcases commitLoop_applied_range init arrivals with ⟨h1, _⟩
  have hlen : ((commitLoop init arrivals).applied).length =
      (commitLoop init arrivals).currentHeight - init := by
    rw [h1, List.length_range']
  constructor
  · rw [hlen]
    exact h1
  · intro i j h hi hj
    rw [h1] at hi hj
    have hi2 : i < (commitLoop init arrivals).currentHeight - init := by
      by_contra hcon
      rw [List.getElem?_eq_none (by simpa using Nat.le_of_not_lt hcon)] at hi
      exact Option.noConfusion hi
    have hj2 : j < (commitLoop init arrivals).currentHeight - init := by
      by_contra hcon
      rw [List.getElem?_eq_none (by simpa using Nat.le_of_not_lt hcon)] at hj
      exact Option.noConfusion hj
    rw [List.getElem?_range' init 1 hi2] at hi
    rw [List.getElem?_range' init 1 hj2] at hj
    simp at hi hj
    omega

/-- Concrete witness for C6: starting at height 5 with batches arriving in
the order 6, 5, 7, the applied trace is 5, 6, 7, and the batch at height 7
(arriving before 5 would allow it to jump the queue) is applied after the
batch at height 6. -/
theorem commit_order_strict_witness :
    (commitLoop 5 [(6, 0), (5, 0), (7, 0)]).applied = [5, 6, 7] ∧
    (1 : Nat) < 2 := by
  refine ⟨rfl, ?_⟩
  exact (commit_order_strict 5 [(6, (0 : Nat)), (5, 0), (7, 0)]).2 2 1 6 rfl rfl

/-- Claim C7 counterexample: with blocks committed through height 10
(`exBlockStore`), the shared counter is initialized to
`last_block_height()` = 10, NOT 11: the first height a fetcher claims is
10, the already committed tip — and the commit loop (started at the same
value) applies a batch for height 10 again. -/
theorem next_height_init_counterexample :
    claimedHeight (currentHeightAtomicInit (lastBlockHeight exBlockStore)) 0 = 10 ∧
    lastBlockHeight exBlockStore + 1 = 11 ∧
    (commitLoop (currentHeightAtomicInit (lastBlockHeight exBlockStore))
      [(10, 0)]).applied = [10] := by
  exact ⟨rfl, rfl, rfl⟩

/-- Claim C7 (amended): the counter is initialized to `last_block_height()`
itself, so the first height a fetcher claims is the last committed height
— the tip block is fetched and committed again (idempotently) — and no
height strictly below the last committed block is ever claimed or
applied. -/
theorem next_height_init_amended {B : Type} (st : BlockStore B) :
    (claimedHeight (currentHeightAtomicInit (lastBlockHeight st)) 0 =
      lastBlockHeight st) ∧
    (∀ i, lastBlockHeight st ≤
      claimedHeight (currentHeightAtomicInit (lastBlockHeight st)) i) ∧
    (∀ (arrivals : List (Nat × B)) (h : Nat),
      h ∈ (commitLoop (currentHeightAtomicInit (lastBlockHeight st))
        arrivals).applied →
      lastBlockHeight st ≤ h) := by
  refine ⟨rfl, fun i => Nat.le_add_right _ _, fun arrivals h hmem => ?_⟩
  rcases commitLoop_applied_range (currentHeightAtomicInit (lastBlockHeight st))
    arrivals with ⟨h1, _⟩
  rw [h1] at hmem
  rw [List.mem_range'] at hmem
  rcases hmem with ⟨_, _, rfl⟩
  exact Nat.le_add_right _ _

/-- Concrete witness for the amended C7: on `exBlockStore` (tip at height
10) the first claimed height is 10, and a height applied by the commit
loop is at least 10. -/
theorem next_height_init_amended_witness :
    claimedHeight (currentHeightAtomicInit (lastBlockHeight exBlockStore)) 0 =
      lastBlockHeight exBlockStore ∧
    (10 : Nat) ≤ 10 := by
  refine ⟨(next_height_init_amended exBlockStore).1, ?_⟩
  exact (next_height_init_amended (B := Nat) exBlockStore).2.2 [(10, 0)] 10
    (by rw [show (commitLoop (currentHeightAtomicInit
      (lastBlockHeight exBlockStore)) [(10, 0)]).applied = [10] from rfl]
        exact List.mem_singleton.mpr rfl)

/-- Claim C1: for every UTXO key k, the overlay read returns `none` whenever
`mempool_utxo_set_remove` contains k (even if the other two column families
have an entry); otherwise it returns the `mempool_utxo_set_add` record if
present, otherwise the `utxo_set` record; and it returns `none` when k is
absent from all three column families. -/
theorem utxo_overlay_semantics (st : UtxoStore) (k : UtxoKey) :
    (∀ v, st.mempoolUtxoSetRemove k = some v → utxoRead st k = none) ∧
    (st.mempoolUtxoSetRemove k = none →
      ∀ u, st.mempoolUtxoSetAdd k = some u → utxoRead st k = some u) ∧
    (st.mempoolUtxoSetRemove k = none → st.mempoolUtxoSetAdd k = none →
      utxoRead st k = st.utxoSet k) ∧
    (st.mempoolUtxoSetRemove k = none → st.mempoolUtxoSetAdd k = none →
      st.utxoSet k = none → utxoRead st k = none) := by
  refine ⟨fun v hv => ?_, fun hr u ha => ?_, fun hr ha => ?_, fun hr ha hs => ?_⟩ <;>
    simp [utxoRead, *]

/-- Claim C2: the stored tx_meta variant is a pure function of the attached
SLP info and the input/output token sums, following the eight-way table:
no SLP info → SatsOnly; UnknownOrInvalid with in_sum = 0 → SatsOnly;
UnknownOrInvalid with in_sum > 0 → InvalidSlp; Valid + NonSlp → SatsOnly;
Valid + NonSlpBurn/SlpParseError/SlpUnsupportedVersion → InvalidSlp;
Valid + one of the eight supported actions → Slp (given the 32-byte token
id its conversion requires). -/
theorem tx_meta_variant_table (tx : Transaction) :
    (tx.slpTransactionInfo = none → txMetaVariant tx = some TxMetaVariant.satsOnly) ∧
    (∀ slp, tx.slpTransactionInfo = some slp →
      slp.validityJudgement = ValidityJudgement.unknownOrInvalid →
      (slpInputSum tx = 0 → txMetaVariant tx = some TxMetaVariant.satsOnly) ∧
      (slpInputSum tx > 0 →
        txMetaVariant tx = some (TxMetaVariant.invalidSlp slp.tokenId (slpInputSum tx)))) ∧
    (∀ slp, tx.slpTransactionInfo = some slp →
      slp.validityJudgement = ValidityJudgement.valid →
      (slp.slpAction = BchSlpAction.nonSlp →
        txMetaVariant tx = some TxMetaVariant.satsOnly) ∧
      (slp.slpAction = BchSlpAction.nonSlpBurn ∨
          slp.slpAction = BchSlpAction.slpParseError ∨
          slp.slpAction = BchSlpAction.slpUnsupportedVersion →
        txMetaVariant tx = some (TxMetaVariant.invalidSlp slp.tokenId (slpInputSum tx))) ∧
      (∀ a, supportedAction slp.slpAction = some a → slp.tokenId.length = 32 →
        txMetaVariant tx =
          some (TxMetaVariant.slp a (slpInputSum tx) (slpOutputSum tx) slp.tokenId))) := by
  refine ⟨fun h => ?_, fun slp hslp hjudge => ⟨fun h0 => ?_, fun hpos => ?_⟩,
    fun slp hslp hjudge => ⟨fun hns => ?_, fun hinv => ?_, fun a ha hlen => ?_⟩⟩
  · simp [txMetaVariant, h]
  · simp [txMetaVariant, hslp, hjudge, h0]
  · simp [txMetaVariant, hslp, hjudge, Nat.pos_iff_ne_zero.mp hpos]
  · simp [txMetaVariant, hslp, hjudge, hns]
  · rcases hinv with h | h | h <;> simp [txMetaVariant, hslp, hjudge, h]
  · cases hact : slp.slpAction <;>
      simp [hact, supportedAction] at ha <;>
      simp [txMetaVariant, hslp, hjudge, hact, tokenId32, hlen, ← ha]

theorem i64OfU64_nonneg {n : Nat} (h : n % 2 ^ 64 < 2 ^ 63) : 0 ≤ i64OfU64 n := by
  unfold i64OfU64
  rw [if_pos h]
  exact Int.natCast_nonneg _

/-- Claim C8 counterexample: `exTxBigToken` pays its P2PKH script only in
an output (the script appears in no input), yet the written AddressTx
record carries delta_tokens = -2^63 < 0: the source contributes
`slp.amount as i64` (indexdb.rs line 600), and the u64 amount 2^63 casts
to the negative i64 -2^63, refuting the unconditional "output-only means
non-negative deltas" part of the claim. -/
theorem addr_tx_delta_sign_counterexample :
    (∀ i ∈ exTxBigToken.inputs, i.previousScript ≠ exP2pkhScript) ∧
    (addrTxEntryFor exTxBigToken exP2pkhScript).map (fun e => e.2.deltaTokens) =
      some (-(2 ^ 63)) ∧
    ¬ (0 : Int) ≤ -(2 ^ 63) := by
  refine ⟨by decide, by decide, by decide⟩

/-- Claim C8 (amended): the record written to addr_tx_meta accumulates
delta_sats and delta_tokens with each input of the script contributing
negatively and each output positively, in wrapping i64 arithmetic: the
deltas stored are the i64-wrapped (received - spent) sums, a token amount
contributing `slp.amount as i64` (negative once the u64 amount reaches
2^63).  The sign corollaries therefore need bounds: for a script appearing
in no input, with non-negative output values, every SLP amount below 2^63
and the two output sums below 2^63, both deltas are non-negative; dually
for a script appearing in no output. -/
theorem addr_tx_delta_signs (tx : Transaction) (s : List Nat) :
    (∀ k e, addrTxEntryFor tx s = some (k, e) →
      e.deltaSats = wrapI64 (scriptOutputSats tx s - scriptInputSats tx s) ∧
      e.deltaTokens = wrapI64 (scriptOutputTokens tx s - scriptInputTokens tx s)) ∧
    ((∀ i ∈ tx.inputs, i.previousScript ≠ s) →
      (∀ o ∈ tx.outputs, 0 ≤ o.value) →
      (∀ o ∈ tx.outputs, ∀ slp, o.slpToken = some slp → slp.amount % 2 ^ 64 < 2 ^ 63) →
      scriptOutputSats tx s < 2 ^ 63 →
      scriptOutputTokens tx s < 2 ^ 63 →
      0 ≤ (addressDelta tx s).1 ∧ 0 ≤ (addressDelta tx s).2) ∧
    ((∀ o ∈ tx.outputs, o.pubkeyScript ≠ s) →
      (∀ i ∈ tx.inputs, 0 ≤ i.value) →
      (∀ i ∈ tx.inputs, ∀ slp, i.slpToken = some slp → slp.amount % 2 ^ 64 < 2 ^ 63) →
      scriptInputSats tx s < 2 ^ 63 →
      scriptInputTokens tx s < 2 ^ 63 →
      (addressDelta tx s).1 ≤ 0 ∧ (addressDelta tx s).2 ≤ 0) := by
  have hdelta := addressDelta_eq tx s
  refine ⟨fun k e he => ?_, fun hnoIn hval htok hbs hbt => ?_,
    fun hnoOut hval htok hbs hbt => ?_⟩
  · unfold addrTxEntryFor at he
    rcases hdest : destinationFromScript s with _ | d
    · rw [hdest] at he
      exact absurd he (by simp)
    · rw [hdest] at he
      cases d <;> simp at he
      rcases he with ⟨_, he⟩
      rw [← he, hdelta]
      exact ⟨rfl, rfl⟩
  · have hin : tx.inputs.filter (fun i => i.previousScript == s) = [] :=
      List.filter_eq_nil_iff.mpr (fun i hi => by simpa using hnoIn i hi)
    have h1 : scriptInputSats tx s = 0 := by simp [scriptInputSats, hin]
    have h2 : scriptInputTokens tx s = 0 := by simp [scriptInputTokens, hin]
    have h3 : 0 ≤ scriptOutputSats tx s := by
      apply List.sum_nonneg
      intro a ha
      simp only [List.mem_map, List.mem_filter] at ha
      rcases ha with ⟨o, ⟨ho, _⟩, rfl⟩
      exact hval o ho
    have h4 : 0 ≤ scriptOutputTokens tx s := by
      apply List.sum_nonneg
      intro a ha
      simp only [List.mem_map, List.mem_filter] at ha
      rcases ha with ⟨o, ⟨ho, _⟩, rfl⟩
      rcases hslp : o.slpToken with _ | slp
      · simp [hslp]
      · simpa using i64OfU64_nonneg (htok o ho slp hslp)
    rw [hdelta]
    constructor
    · show 0 ≤ wrapI64 (scriptOutputSats tx s - scriptInputSats tx s)
      rw [h1, sub_zero, wrapI64_of_range (by omega) hbs]
      exact h3
    · show 0 ≤ wrapI64 (scriptOutputTokens tx s - scriptInputTokens tx s)
      rw [h2, sub_zero, wrapI64_of_range (by omega) hbt]
      exact h4
  · have hout : tx.outputs.filter (fun o => o.pubkeyScript == s) = [] :=
      List.filter_eq_nil_iff.mpr (fun o ho => by simpa using hnoOut o ho)
    have h1 : scriptOutputSats tx s = 0 := by simp [scriptOutputSats, hout]
    have h2 : scriptOutputTokens tx s = 0 := by simp [scriptOutputTokens, hout]
    have h3 : 0 ≤ scriptInputSats tx s := by
      apply List.sum_nonneg
      intro a ha
      simp only [List.mem_map, List.mem_filter] at ha
      rcases ha with ⟨i, ⟨hi, _⟩, rfl⟩
      exact hval i hi
    have h4 : 0 ≤ scriptInputTokens tx s := by
      apply List.sum_nonneg
      intro a ha
      simp only [List.mem_map, List.mem_filter] at ha
      rcases ha with ⟨i, ⟨hi, _⟩, rfl⟩
      rcases hslp : i.slpToken with _ | slp
      · simp [hslp]
      · simpa using i64OfU64_nonneg (htok i hi slp hslp)
    rw [hdelta]
    constructor
    · show wrapI64 (scriptOutputSats tx s - scriptInputSats tx s) ≤ 0
      rw [h1, zero_sub, wrapI64_of_range (by omega) (by omega)]
      omega
    · show wrapI64 (scriptOutputTokens tx s - scriptInputTokens tx s) ≤ 0
      rw [h2, zero_sub, wrapI64_of_range (by omega) (by omega)]
      omega

/-- Concrete witness for the amended C8: `exTxTokenPay` pays its P2PKH
script only in an output (5 sats, 600 tokens); the written entry's deltas
are the wrapped output-minus-input sums and both are non-negative. -/
theorem addr_tx_delta_signs_witness :
    ((addrTxEntryFor exTxTokenPay exP2pkhScript).map (fun e => e.2.deltaSats) =
      some (wrapI64 (scriptOutputSats exTxTokenPay exP2pkhScript -
        scriptInputSats exTxTokenPay exP2pkhScript))) ∧
    0 ≤ (addressDelta exTxTokenPay exP2pkhScript).1 ∧
    0 ≤ (addressDelta exTxTokenPay exP2pkhScript).2 := by
  have h := addr_tx_delta_signs exTxTokenPay exP2pkhScript
  refine ⟨?_, h.2.1 (by decide) (by decide) (by decide) (by decide) (by decide)⟩
  rcases he : addrTxEntryFor exTxTokenPay exP2pkhScript with _ | ke
  · exact absurd he (by decide)
  · simpa using (h.1 ke.1 ke.2 (by rw [he])).1

/-- Claim C9 (refuted: the code panics): `destination_from_script` is not
total.  The Rust slice pattern `[OP_DUP, OP_HASH160, 20, hash @ ..,
OP_EQUALVERIFY, OP_CHECKSIG]` does not constrain the length of `hash`, so
the 5-byte script `OP_DUP OP_HASH160 0x14 OP_EQUALVERIFY OP_CHECKSIG`
matches the P2PKH arm with an empty hash and
`Hash160::from_slice(hash).expect("Invalid hash")` panics (`none` here)
instead of returning `Unknown`; a 25-byte script with exactly 20 hash
bytes classifies as a P2PKH address as the claim states. -/
theorem destination_p2pkh_panics :
    destinationFromScript [OP_DUP, OP_HASH160, 20, OP_EQUALVERIFY, OP_CHECKSIG] = none ∧
    destinationFromScript
        ([OP_DUP, OP_HASH160, 20] ++ List.replicate 20 5 ++ [OP_EQUALVERIFY, OP_CHECKSIG]) =
      some (Destination.address AddressType.p2pkh (List.replicate 20 5)) ∧
    destinationFromScript
        ([OP_HASH160, 20] ++ List.replicate 20 5 ++ [OP_EQUAL]) =
      some (Destination.address AddressType.p2sh (List.replicate 20 5)) := by
  refine ⟨by decide, by decide, by decide⟩

/-- Claim C10: an addr_tx_meta key written for a mempool transaction
(block_height = -1) stores 0xFFFFFFFF (= 2^32 - 1) in its big-endian
block_height key field, and such a key sorts lexicographically strictly
after every key of the same address whose stored height is smaller (in
particular after every confirmed entry, whose height is a non-negative
`i32` cast to `u32`, hence < 2^32 - 1). -/
theorem mempool_addr_tx_key_order :
    (∀ (tx : Transaction) (s : List Nat) (k : AddrTxKey) (e : AddressTx),
      tx.blockHeight = -1 → addrTxEntryFor tx s = some (k, e) →
      k.blockHeight = 2 ^ 32 - 1) ∧
    (∀ (t : Nat) (hsh : List Nat) (hc : Nat) (txh1 txh2 : List Nat),
      hc < 2 ^ 32 - 1 →
      bytesLt (AddrTxKey.encode ⟨t, hsh, hc, txh1⟩)
        (AddrTxKey.encode ⟨t, hsh, 2 ^ 32 - 1, txh2⟩) = true) := by
  constructor
  · intro tx s k e hh he
    unfold addrTxEntryFor at he
    rcases hdest : destinationFromScript s with _ | d
    · rw [hdest] at he
      exact absurd he (by simp)
    · rw [hdest] at he
      cases d <;> simp at he
      rcases he with ⟨hk, _⟩
      rw [← hk]
      simp [u32OfI32, hh]
  · intro t hsh hc txh1 txh2 hlt
    have he1 : AddrTxKey.encode ⟨t, hsh, hc, txh1⟩ =
        (t :: hsh) ++ (beBytes4 hc ++ txh1) := by
      simp [AddrTxKey.encode]
    have he2 : AddrTxKey.encode ⟨t, hsh, 2 ^ 32 - 1, txh2⟩ =
        (t :: hsh) ++ (beBytes4 (2 ^ 32 - 1) ++ txh2) := by
      simp [AddrTxKey.encode]
    rw [he1, he2, bytesLt_append_same]
    exact bytesLt_beBytes4 hlt (by omega) txh1 txh2

/-- Concrete witness for C10: the mempool entry for `exP2pkhScript` carries
key field 0xFFFFFFFF, and a confirmed key of the same address at height 7
sorts strictly before the mempool key. -/
theorem mempool_addr_tx_key_order_witness :
    ((addrTxEntryFor exTxMempool exP2pkhScript).map (fun e => e.1.blockHeight) =
      some (2 ^ 32 - 1)) ∧
    bytesLt (AddrTxKey.encode ⟨0, List.replicate 20 5, 7, List.replicate 32 1⟩)
      (AddrTxKey.encode ⟨0, List.replicate 20 5, 2 ^ 32 - 1, List.replicate 32 9⟩) = true := by
  constructor
  · rcases he : addrTxEntryFor exTxMempool exP2pkhScript with _ | ke
    · exact absurd he (by decide)
    · have h := mempool_addr_tx_key_order.1 exTxMempool exP2pkhScript ke.1 ke.2
        (by decide) (by rw [he])
      simp [h]
  · exact mempool_addr_tx_key_order.2 0 (List.replicate 20 5) 7
      (List.replicate 32 1) (List.replicate 32 9) (by norm_num)

/-- Concrete witness for C2: a transaction with no SLP info classifies as
SatsOnly; an UnknownOrInvalid one with positive input sum classifies as
InvalidSlp; a Valid SlpV1Send with a 32-byte token id classifies as Slp. -/
theorem tx_meta_variant_table_witness :
    txMetaVariant exTxNoSlp = some TxMetaVariant.satsOnly ∧
    txMetaVariant exTxInvalid =
      some (TxMetaVariant.invalidSlp (List.replicate 32 7) 700) ∧
    txMetaVariant exTxValidSend =
      some (TxMetaVariant.slp SlpAction.slpV1Send 1000 1000 (List.replicate 32 7)) := by
  refine ⟨(tx_meta_variant_table exTxNoSlp).1 rfl, ?_, ?_⟩
  · have h := ((tx_meta_variant_table exTxInvalid).2.1
      ⟨ValidityJudgement.unknownOrInvalid, BchSlpAction.slpV1Send, List.replicate 32 7⟩
      rfl rfl).2 (by decide)
    simpa [slpInputSum, exTxInvalid] using h
  · have h := ((tx_meta_variant_table exTxValidSend).2.2
      ⟨ValidityJudgement.valid, BchSlpAction.slpV1Send, List.replicate 32 7⟩
      rfl rfl).2.2 SlpAction.slpV1Send rfl (by decide)
    simpa [slpInputSum, slpOutputSum, exTxValidSend] using h

/-- Concrete witness for C1: a store where the remove CF hides a key that
both other CFs contain, and a key absent everywhere reads as `none`. -/
theorem utxo_overlay_semantics_witness :
    utxoRead
      { utxoSet := fun _ => some ⟨50, 0, true, 1, none⟩
        mempoolUtxoSetAdd := fun _ => some ⟨60, 0, false, -1, none⟩
        mempoolUtxoSetRemove := fun _ => some [] }
      ⟨List.replicate 32 0, 0⟩ = none ∧
    utxoRead
      { utxoSet := fun _ => none
        mempoolUtxoSetAdd := fun _ => none
        mempoolUtxoSetRemove := fun _ => none }
      ⟨List.replicate 32 0, 0⟩ = none := by
  constructor
  · exact (utxo_overlay_semantics _ _).1 [] rfl
  · exact (utxo_overlay_semantics _ _).2.2.2 rfl rfl rfl

end Explorer
